import Mathlib

/-!
Verification development for the WinJavaLauncher repository (`src/main.cpp`,
`src/resources.h`).  The launcher's pure helpers (`sanitizeFileName`, path
handling) are embedded as Lean functions on `List Char`; its filesystem- and
process-affecting procedures (`extractResource`, `unzipFile`,
`deleteFilesAndDirectories`, `getRunDirectory`, `main`) are embedded as
explicit state-passing functions over a small filesystem model together with
an event trace and an error log (messages written to `stderr` via
`printErrorInfo`).  Outcomes of host calls that the program only observes
(resource lookups, `GetTempPath`, `CreateProcess`, zip parsing) are supplied
by environment records.
-/

/-- Strings of the embedding: C++ `std::string` as a list of characters. -/
abbrev Str := List Char

/-- Filesystem paths as lists of name components (`std::filesystem::path`
decomposed at directory separators). -/
abbrev FPath := List Str

/-- main.cpp line 51: `constexpr bool DEBUG_MODE = false;` -/
def DEBUG_MODE : Bool := false

/-- main.cpp line 54: `constexpr bool USE_TEMP_DIRECTORY = true;` -/
def USE_TEMP_DIRECTORY : Bool := true

/-- main.cpp line 58: `constexpr bool IN_MEMORY_EXECUTION = false;` -/
def IN_MEMORY_EXECUTION : Bool := false

/-- main.cpp line 61: `const std::string unsafeChars = R"([\/:*?"<>|])";`.
The raw string literal denotes the eleven characters
`[` `\` `/` `:` `*` `?` `"` `<` `>` `|` `]` (the brackets are part of the
string: it is searched with `std::string::find`, not used as a regex). -/
def unsafeChars : Str := "[\\/:*?\"<>|]".toList

/-- The whitespace set `" \t\n\r\f\v"` used by the trimming calls in
`sanitizeFileName` (main.cpp lines 333-334). -/
def whitespaceChars : Str := " \t\n\r\x0c\x0b".toList

/-- main.cpp line 337: the fixed default token substituted for an empty
sanitized name. -/
def defaultSanitizedName : Str := "default_name".toList

/-- The per-character replacement of the loop at main.cpp lines 327-331: a
character found in `unsafeChars` becomes `'_'`, every other character is
kept. -/
def replaceChar (ch : Char) : Char :=
  if unsafeChars.contains ch then '_' else ch

/-- Embedding of `sanitizeFileName` (main.cpp lines 324-340).
Each character found in `unsafeChars` is replaced by `'_'`; then leading and
trailing whitespace is erased; an empty result is replaced by
`default_name`.  The two `erase` calls are modelled by `dropWhile` from the
front and (via `reverse`) from the back: `erase(0, find_first_not_of(ws))`
removes exactly the leading whitespace run (with `npos` erasing everything
when the string is all whitespace), and `erase(find_last_not_of(ws) + 1)`
removes exactly the trailing run (after the first erase, `npos` can only
occur for the empty string, where `npos + 1` wraps to `0` and erases
nothing). -/
def sanitizeFileName (name : Str) : Str :=
  let sanitizedName := name.map replaceChar
  let trimmedFront := sanitizedName.dropWhile (fun c => whitespaceChars.contains c)
  let trimmedName := (trimmedFront.reverse.dropWhile (fun c => whitespaceChars.contains c)).reverse
  if trimmedName = [] then defaultSanitizedName else trimmedName

/-- ASCII alphanumeric test (C `isalnum` in the "C" locale), used to state
the spec's sanitization property. -/
def isAlnumAscii (c : Char) : Bool :=
  (decide ('0' ≤ c) && decide (c ≤ '9')) ||
  (decide ('A' ≤ c) && decide (c ≤ 'Z')) ||
  (decide ('a' ≤ c) && decide (c ≤ 'z'))

/-- A character the spec allows in a sanitized name: alphanumeric, hyphen or
underscore. -/
def specAllowedChar (c : Char) : Bool :=
  isAlnumAscii c || c == '-' || c == '_'

/-- Windows directory separators recognized by `std::filesystem::path`. -/
def isPathSep (c : Char) : Bool := c == '/' || c == '\\'

/-- Helper for `splitName`: accumulates the current component (reversed). -/
def splitNameAux : Str → Str → FPath
  | [], acc => if acc = [] then [] else [acc.reverse]
  | c :: rest, acc =>
    if isPathSep c then
      if acc = [] then splitNameAux rest []
      else acc.reverse :: splitNameAux rest []
    else splitNameAux rest (c :: acc)

/-- Decompose a path string into its non-empty name components
(`fs::path` component iteration, as observed by the directory and file
operations the launcher performs). -/
def splitName (s : Str) : FPath := splitNameAux s []

/-- Filename component of a path string (`fs::path::filename`): the part
after the last directory separator. -/
def filenameOf (s : Str) : Str :=
  (s.reverse.takeWhile (fun c => !isPathSep c)).reverse

/-- Parent of a path string (`fs::path::parent_path`): the part before the
last directory separator, with trailing separators dropped. -/
def parentOf (s : Str) : Str :=
  let raw := (s.reverse.dropWhile (fun c => !isPathSep c)).reverse
  (raw.reverse.dropWhile isPathSep).reverse

/-- Embedding of `fs::path::stem` for a filename component: the name with
its last extension removed; a name whose only dot is leading (and the
special name `..`) is returned whole. -/
def stem (f : Str) : Str :=
  if f = "..".toList then f
  else
    let afterDot := f.reverse.takeWhile (fun c => c != '.')
    if afterDot.length = f.length then f
    else
      let dotIdx := f.length - afterDot.length - 1
      if dotIdx = 0 then f else f.take dotIdx

/-- One step of path normalization: `.` components are dropped and `..`
removes the preceding component, as the OS resolves them at access time. -/
def normStep (acc : FPath) (comp : Str) : FPath :=
  if comp = ".".toList then acc
  else if comp = "..".toList then acc.dropLast
  else acc ++ [comp]

/-- Normalized form of a component path: the path the filesystem actually
resolves, with `.` and `..` components eliminated. -/
def normalizePath (p : FPath) : FPath := p.foldl normStep []

/-- Observable filesystem and process actions performed by the launcher. -/
inductive Event where
  | createDir : FPath → Event
  | writeFile : FPath → Str → Event
  | removeFile : FPath → Event
  | removeTree : FPath → Event
  | launch : FPath → Event
  | waitChild : Event
deriving DecidableEq, Repr

/-- Filesystem model: regular files with contents, and directories.
Paths are stored as written; queries compare resolved (`normalizePath`)
forms, as the OS does. -/
structure FS where
  files : List (FPath × Str)
  dirs : List FPath
deriving DecidableEq, Repr

/-- Model of `fs::exists`: the path resolves to a file or a directory. -/
def FS.existsPath (fs : FS) (p : FPath) : Bool :=
  fs.files.any (fun f => normalizePath f.1 == normalizePath p) ||
  fs.dirs.any (fun d => normalizePath d == normalizePath p)

/-- The path resolves to an existing directory (the empty resolved path is
the base the run's relative paths hang from, and always exists). -/
def FS.dirExistsAt (fs : FS) (p : FPath) : Bool :=
  normalizePath p == [] ||
  fs.dirs.any (fun d => normalizePath d == normalizePath p)

/-- Contents of the file a path resolves to, if any. -/
def FS.readFile (fs : FS) (p : FPath) : Option Str :=
  (fs.files.find? (fun f => normalizePath f.1 == normalizePath p)).map (fun f => f.2)

/-- Create or truncate the file at a path (`ofstream` / `fopen "wb"`). -/
def FS.writeFileFs (fs : FS) (p : FPath) (data : Str) : FS :=
  { fs with files := (p, data) :: fs.files.filter (fun f => !(normalizePath f.1 == normalizePath p)) }

/-- Model of `fs::remove`: drop the single entry the path resolves to. -/
def FS.removePathFs (fs : FS) (p : FPath) : FS :=
  { files := fs.files.filter (fun f => !(normalizePath f.1 == normalizePath p)),
    dirs := fs.dirs.filter (fun d => !(normalizePath d == normalizePath p)) }

/-- Model of `fs::remove_all`: drop everything the path is a resolved prefix
of, returning the new filesystem and the number of entries removed. -/
def FS.removeAllFs (fs : FS) (p : FPath) : FS × Nat :=
  let keptFiles := fs.files.filter (fun f => !((normalizePath p).isPrefixOf (normalizePath f.1)))
  let keptDirs := fs.dirs.filter (fun d => !((normalizePath p).isPrefixOf (normalizePath d)))
  (⟨keptFiles, keptDirs⟩,
   (fs.files.length - keptFiles.length) + (fs.dirs.length - keptDirs.length))

/-- Program state threaded through the run: the filesystem, the trace of
actions performed, and the messages printed to `stderr` by
`printErrorInfo`. -/
structure St where
  fs : FS
  events : List Event
  errors : List String
deriving DecidableEq, Repr

/-- Embedding of `printErrorInfo` (main.cpp lines 75-77). -/
def St.report (st : St) (msg : String) : St :=
  { st with errors := st.errors ++ [msg] }

/-- Record a non-filesystem event (process launch, wait). -/
def St.emit (st : St) (e : Event) : St :=
  { st with events := st.events ++ [e] }

/-- Write a file and record the write. -/
def St.doWrite (st : St) (p : FPath) (data : Str) : St :=
  { st with fs := st.fs.writeFileFs p data, events := st.events ++ [Event.writeFile p data] }

/-- Create a single directory and record the creation. -/
def St.doMkdir (st : St) (p : FPath) : St :=
  { st with fs := { st.fs with dirs := st.fs.dirs ++ [p] },
            events := st.events ++ [Event.createDir p] }

/-- Remove a single filesystem entry and record the removal. -/
def St.doRemoveFile (st : St) (p : FPath) : St :=
  { st with fs := st.fs.removePathFs p, events := st.events ++ [Event.removeFile p] }

/-- Remove a whole tree and record the removal; also yields the
`fs::remove_all` count. -/
def St.doRemoveTree (st : St) (p : FPath) : St × Nat :=
  let r := st.fs.removeAllFs p
  ({ st with fs := r.1, events := st.events ++ [Event.removeTree p] }, r.2)

/-- Error messages (abbreviated forms of the strings printed in main.cpp;
only their presence on `stderr` matters to the properties below). -/
def errDeleteFiles : String := "Error deleting files and/or directories"

/-- Message for a zip that cannot be opened (main.cpp line 212). -/
def errOpenZip : String := "Error during unzip operation: Error opening zip file"

/-- Message for a zip with no entries (main.cpp line 218). -/
def errNoFilesInZip : String := "Error during unzip operation: No files found in the zip archive"

/-- Message for a failed filename query (main.cpp line 225). -/
def errGetFilename : String := "Error getting filename from zip"

/-- Message for a failed directory creation during extraction (line 231). -/
def errCreateDirEntry : String := "Error creating directory"

/-- Message for a failed per-entry extraction (main.cpp line 236). -/
def errExtractFile : String := "Error extracting file"

/-- Message for a throwing `fs::remove` of the consumed zip (line 246,
caught by the `filesystem_error` handler at line 249). -/
def errRemoveZip : String := "File system error: removing zip file failed"

/-- Resource-extraction failure messages (main.cpp lines 133-185). -/
def errResModule : String := "Failed to get module handle!"

/-- Message when `FindResource` returns null (main.cpp line 140). -/
def errResNotFound : String := "Resource not found!"

/-- Message when `SizeofResource` returns 0 (main.cpp line 147). -/
def errResZeroSize : String := "Resource size is 0!"

/-- Message when `LoadResource` fails (main.cpp line 154). -/
def errResLoad : String := "Failed to load resource!"

/-- Message when `LockResource` fails (main.cpp line 162). -/
def errResLock : String := "Failed to lock resource!"

/-- Message for a missing output path (main.cpp line 175). -/
def errResNoOutput : String := "Error extracting resource: No output path specified for disk extraction."

/-- Message when the output file cannot be opened (main.cpp line 180). -/
def errResOpenOutput : String := "Error extracting resource: Failed to open output file for writing."

/-- Message printed by `getTempDirectory` before throwing (line 309). -/
def errTempDir : String := "Failed to get temporary directory."

/-- Message printed by the catch in `getRunDirectory` (line 382). -/
def errTempCaught : String := "Exception caught while acquiring temp directory"

/-- Message for the empty-temp-path fallback (main.cpp line 373). -/
def errTempEmpty : String := "Temp directory acquisition failed, falling back to executable directory."

/-- Message printed before the creation failure is rethrown (line 396). -/
def errDirCreation : String := "Exception during directory creation"

/-- Message for a failed `CreateProcess` (main.cpp line 479). -/
def errLaunchFailed : String := "Failed to launch"

/-- Message for a zero `remove_all` count (main.cpp line 103). -/
def errDeleteDirFailed : String := "Error: Failed to delete extracted directory"

/-- One archive entry as enumerated by the miniz reader: its raw stored
name and its decompressed bytes. -/
structure ZipEntry where
  name : Str
  data : Str
deriving DecidableEq, Repr

/-- What the miniz reader finds in an archive file: whether the bytes parse
as a zip at all, the entries, and whether the final `fs::remove` of the
consumed archive throws. -/
structure ZipData where
  valid : Bool
  entries : List ZipEntry
  removeThrows : Bool
deriving DecidableEq, Repr

/-- Directory-entry test of main.cpp line 229:
`filenameStr.back() == '\\' || filenameStr.back() == '/'`  (an empty entry
name, whose `back()` the source never defines, is treated as a file name). -/
def isDirEntryName (s : Str) : Bool :=
  match s.getLast? with
  | some c => c == '\\' || c == '/'
  | none => false

/-- All non-empty component prefixes of a path, shortest first. -/
def pathPrefixes (p : FPath) : List FPath :=
  (List.range p.length).map (fun i => p.take (i + 1))

/-- Embedding of `fs::create_directories` as invoked at main.cpp line 230:
create every missing ancestor of the path, reporting whether anything was
actually created (the C++ call returns `false` when the directory already
exists). -/
def createDirectories (p : FPath) (st : St) : St × Bool :=
  (pathPrefixes p).foldl
    (fun acc q => if acc.1.fs.dirExistsAt q then acc else (acc.1.doMkdir q, true))
    (st, false)

/-- The per-entry loop of `unzipFile` (main.cpp lines 221-240).  Processes
entries in order; stops at the first failure, returning the state reached so
far and the thrown message.  A stored name of 512 characters or more does
not fit the 512-byte filename buffer (line 222). -/
def unzipEntries (extractDir : FPath) : List ZipEntry → St → St × Option String
  | [], st => (st, none)
  | e :: rest, st =>
    if 512 ≤ e.name.length then (st, some errGetFilename)
    else if isDirEntryName e.name then
      if (createDirectories (extractDir ++ splitName e.name) st).2 then
        unzipEntries extractDir rest (createDirectories (extractDir ++ splitName e.name) st).1
      else ((createDirectories (extractDir ++ splitName e.name) st).1, some errCreateDirEntry)
    else
      if st.fs.dirExistsAt (extractDir ++ splitName e.name).dropLast then
        unzipEntries extractDir rest (st.doWrite (extractDir ++ splitName e.name) e.data)
      else (st, some errExtractFile)

/-- Embedding of `unzipFile` (main.cpp lines 206-254).  Opening fails when
the archive file is absent or its bytes are not a valid zip; a zero-entry
archive and any per-entry failure throw, caught locally after which the
function just reports.  Only when the whole entry loop completes does
control reach the `fs::exists`/`fs::remove` of the consumed archive (lines
245-248); a throwing remove is caught and reported. -/
def unzipFile (zd : ZipData) (zipPath extractDir : FPath) (st : St) : St :=
  if !(st.fs.existsPath zipPath && zd.valid) then st.report errOpenZip
  else if zd.entries.length == 0 then st.report errNoFilesInZip
  else
    match unzipEntries extractDir zd.entries st with
    | (st', some msg) => st'.report msg
    | (st', none) =>
      if st'.fs.existsPath zipPath then
        if zd.removeThrows then st'.report errRemoveZip
        else st'.doRemoveFile zipPath
      else st'

/-- Outcome of the host resource machinery for one resource identifier, as
observed by `extractResource` (main.cpp lines 126-195). -/
inductive ResOutcome where
  | noModule
  | notFound
  | zeroSize
  | loadFail
  | lockFail
  | okData : Str → ResOutcome
deriving DecidableEq, Repr

/-- Embedding of `extractResource` (main.cpp lines 126-195) in the active
configuration (`IN_MEMORY_EXECUTION = false`, so the disk branch runs).
Every host failure is reported and the function returns with nothing
written; with the resource data in hand, an empty output path and an
unopenable output file (missing parent directory) are thrown, caught
locally and reported; otherwise the bytes are written verbatim. -/
def extractResource (res : ResOutcome) (outputPath : FPath) (st : St) : St :=
  match res with
  | .noModule => st.report errResModule
  | .notFound => st.report errResNotFound
  | .zeroSize => st.report errResZeroSize
  | .loadFail => st.report errResLoad
  | .lockFail => st.report errResLock
  | .okData data =>
    if IN_MEMORY_EXECUTION then st
    else if outputPath.isEmpty then st.report errResNoOutput
    else if !(st.fs.dirExistsAt outputPath.dropLast) then st.report errResOpenOutput
    else st.doWrite outputPath data

/-- The directory half of `deleteFilesAndDirectories` (main.cpp lines
98-107): if a non-empty directory path exists, `remove_all` it; a zero
removal count would be thrown and reported. -/
def deleteDirPart (extractDir : FPath) (st : St) : St :=
  if !extractDir.isEmpty && st.fs.existsPath extractDir then
    if (st.doRemoveTree extractDir).2 == 0 then
      (st.doRemoveTree extractDir).1.report errDeleteDirFailed
    else (st.doRemoveTree extractDir).1
  else st

/-- Embedding of `deleteFilesAndDirectories` (main.cpp lines 88-113): the
zip file, then the extracted directory, each deleted only if non-empty and
existing; deletions of existing paths succeed in this model, so the
throw-on-false branches (lines 95 and 103) are dead here and each half is a
no-op for an absent path. -/
def deleteFilesAndDirectories (zipPath extractDir : FPath) (st : St) : St :=
  if !zipPath.isEmpty && st.fs.existsPath zipPath then
    deleteDirPart extractDir (st.doRemoveFile zipPath)
  else
    deleteDirPart extractDir st

/-- The parent directory chosen by `getRunDirectory` (main.cpp lines
366-385): with `USE_TEMP_DIRECTORY` set, the temp directory when
`GetTempPath` yields a non-empty string, else the executable's parent. -/
def runDirParent (tempResult : Option Str) (exeFile : Str) : Str :=
  if USE_TEMP_DIRECTORY then
    match tempResult with
    | some t => if t.isEmpty then parentOf exeFile else t
    | none => parentOf exeFile
  else parentOf exeFile

/-- The run-directory path computed by `getRunDirectory` (main.cpp line
387): the chosen parent joined with the sanitized stem of the executable
name. -/
def runDirPath (tempResult : Option Str) (exeFile : Str) : FPath :=
  splitName (runDirParent tempResult exeFile) ++
    [sanitizeFileName (stem (filenameOf exeFile))]

/-- The reports emitted while `getRunDirectory` (main.cpp lines 355-403)
acquires the temp directory: `tempResult` is the observed `GetTempPath`
outcome — `none` means the call failed and `getTempDirectory` threw
(reported twice, by lines 309 and 382, before the parent falls back to the
executable's directory); an empty path takes the reported fallback of line
373.  Only the error log changes. -/
def tempProbe (tempResult : Option Str) (st : St) : St :=
  match tempResult with
  | none => (st.report errTempDir).report errTempCaught
  | some t => if t.isEmpty then st.report errTempEmpty else st

/-- Embedding of the body of `getRunDirectory` after the parent directory
is resolved (main.cpp lines 387-402): if the run directory does not exist,
create it; an injected creation failure is reported and rethrown, so the
function yields no path and the exception escapes `main`. -/
def getRunDirectory (tempResult : Option Str) (createDirFails : Bool)
    (exeFile : Str) (st : St) : St × Option FPath :=
  if (tempProbe tempResult st).fs.existsPath (runDirPath tempResult exeFile) then
    (tempProbe tempResult st, some (runDirPath tempResult exeFile))
  else if createDirFails then
    ((tempProbe tempResult st).report errDirCreation, none)
  else
    ((tempProbe tempResult st).doMkdir (runDirPath tempResult exeFile),
     some (runDirPath tempResult exeFile))

/-- Environment of one launcher run: everything `main` observes from the
host — the executable-name resource, `GetTempPath`, the outcome of
`fs::create_directory`, the three resource lookups, what the two archive
files parse to, and whether `CreateProcess` succeeds.  The child's exit
code is included to make its irrelevance checkable: the source only ever
calls `WaitForSingleObject` and never reads the code. -/
structure MainEnv where
  exeFile : Str
  tempResult : Option Str
  createDirFails : Bool
  appRes : ResOutcome
  runtimeRes : ResOutcome
  exeRes : ResOutcome
  appZip : ZipData
  runtimeZip : ZipData
  launchOk : Bool
  childExitCode : Nat
deriving DecidableEq, Repr

/-- How the launcher process itself ends: a normal `return` from `main`, or
`std::terminate` after an exception escapes `main` uncaught. -/
inductive RunOutcome where
  | exited : Nat → RunOutcome
  | terminated : RunOutcome
deriving DecidableEq, Repr

/-- Fixed archive file name `app.zip` (main.cpp line 446). -/
def appZipName : Str := "app.zip".toList

/-- Fixed archive file name `runtime.zip` (main.cpp line 447). -/
def runtimeZipName : Str := "runtime.zip".toList

/-- The `CreateProcess` block of `main` (main.cpp lines 454-480): the
launch of `<runDir>\<exeFile>` is attempted; on success the launcher waits
for the child, on failure it reports the error. -/
def launchStep (env : MainEnv) (runDir : FPath) (st₆ : St) : St :=
  if env.launchOk then
    (st₆.emit (Event.launch (runDir ++ splitName env.exeFile))).emit Event.waitChild
  else
    (st₆.emit (Event.launch (runDir ++ splitName env.exeFile))).report errLaunchFailed

/-- The body of `main` from the first resource extraction to the end of the
process-launch block (main.cpp lines 442-480), as the composition (applied
innermost first) of the three resource extractions into the run directory,
the two unzips, and the launch block. -/
def pipelineToLaunch (env : MainEnv) (runDir : FPath) (st₁ : St) : St :=
  launchStep env runDir
    (unzipFile env.runtimeZip (runDir ++ [runtimeZipName]) runDir
      (unzipFile env.appZip (runDir ++ [appZipName]) runDir
        (extractResource env.exeRes (runDir ++ splitName env.exeFile)
          (extractResource env.runtimeRes (runDir ++ [runtimeZipName])
            (extractResource env.appRes (runDir ++ [appZipName]) st₁)))))

/-- Embedding of `main` (main.cpp lines 417-493) in the active
configuration (`IN_MEMORY_EXECUTION = false`).  The run-directory
resolution comes first; its creation failure escapes as an uncaught
exception (`terminated`).  Otherwise `pipelineToLaunch` runs, the run
directory is deleted, and `main` returns 0 — its only reachable return
statement. -/
def mainRun (env : MainEnv) (fs0 : FS) : RunOutcome × St :=
  if IN_MEMORY_EXECUTION then
    (RunOutcome.exited 0, ⟨fs0, [], []⟩)
  else
    match getRunDirectory env.tempResult env.createDirFails env.exeFile ⟨fs0, [], []⟩ with
    | (st₁, none) => (RunOutcome.terminated, st₁)
    | (st₁, some runDir) =>
      (RunOutcome.exited 0,
       deleteFilesAndDirectories [] runDir (pipelineToLaunch env runDir st₁))

/-- Concrete destination directory used by the archive scenarios. -/
def dst0 : FPath := ["dst".toList]

/-- Concrete archive path inside `dst0`. -/
def zp0 : FPath := dst0 ++ ["arc.zip".toList]

/-- Initial filesystem for the archive scenarios: the destination directory
exists and holds the archive file. -/
def fsArc : FS := ⟨[(zp0, "zipbytes".toList)], [dst0]⟩

/-- Initial state for the archive scenarios. -/
def stArc : St := ⟨fsArc, [], []⟩

/-- The round-trip archive of the spec: `a.txt` = "hi", a `sub/` directory
entry, then `sub/b.txt` = "x". -/
def zdRound : ZipData :=
  ⟨true, [⟨"a.txt".toList, "hi".toList⟩, ⟨"sub/".toList, []⟩,
          ⟨"sub/b.txt".toList, "x".toList⟩], false⟩

/-- An archive file whose bytes do not parse as a zip (open failure). -/
def zdOpenFail : ZipData := ⟨false, [], false⟩

/-- An archive whose second entry fails to extract (its parent directory
`nodir` does not exist and no directory entry precedes it), so extraction
aborts after the first entry. -/
def zdPartial : ZipData :=
  ⟨true, [⟨"a.txt".toList, "hi".toList⟩, ⟨"nodir/b.txt".toList, "x".toList⟩], false⟩

/-- A syntactically valid archive with zero entries. -/
def zdEmpty : ZipData := ⟨true, [], false⟩

/-- Concrete `GetTempPath` result used by the run scenarios. -/
def tempS : Str := "C:\\Temp".toList

/-- Concrete executable-name resource used by the run scenarios. -/
def exeN : Str := "App.exe".toList

/-- The run directory those choices resolve to: `C:\Temp\App`. -/
def runDir0 : FPath := runDirPath (some tempS) exeN

/-- Initial filesystem for full-run scenarios: the temp directory and its
ancestor exist (as on a real machine), nothing else. -/
def fsTempBase : FS := ⟨[], [["C:".toList], ["C:".toList, "Temp".toList]]⟩

/-- A one-entry application archive. -/
def zdApp1 : ZipData := ⟨true, [⟨"a.txt".toList, "hi".toList⟩], false⟩

/-- A one-entry runtime archive. -/
def zdRt1 : ZipData := ⟨true, [⟨"r.txt".toList, "rr".toList⟩], false⟩

/-- A fully successful run environment: every resource found, both archives
valid, the child launches and exits 0. -/
def envAllOk : MainEnv :=
  ⟨exeN, some tempS, false, ResOutcome.okData ("AZ".toList),
   ResOutcome.okData ("RZ".toList), ResOutcome.okData ("EX".toList),
   zdApp1, zdRt1, true, 0⟩

/-- The same run except that creating the run directory fails. -/
def envDirFail : MainEnv := { envAllOk with createDirFails := true }

/-- The same run except that `CreateProcess` fails (and the child exit code
slot holds a nonzero value that the launcher never reads). -/
def envLaunchFail : MainEnv := { envAllOk with launchOk := false, childExitCode := 7 }

/-- The same (successful) run with a nonzero child exit code. -/
def envChild7 : MainEnv := { envAllOk with childExitCode := 7 }

/-- An application archive whose single entry name starts with `..`: a
zip-slip entry escaping the extraction directory. -/
def zdSlip : ZipData := ⟨true, [⟨"../evil.txt".toList, "p".toList⟩], false⟩

/-- The successful run with the zip-slip application archive. -/
def envSlip : MainEnv := { envAllOk with appZip := zdSlip }

/-- The raw path the zip-slip entry is written to: `<runDir>\..\evil.txt`,
which resolves to `C:\Temp\evil.txt`, outside the run directory. -/
def slipWritePath : FPath := runDir0 ++ ["..".toList, "evil.txt".toList]

/-- Runs whose application-archive resource identifier is invalid
(`FindResource` fails), parameterized by whether the runtime resource is
found and whether the launch succeeds. -/
def envMissingApp (rtOk launchOk : Bool) : MainEnv :=
  { envAllOk with
      appRes := ResOutcome.notFound,
      runtimeRes := if rtOk then ResOutcome.okData ("RZ".toList) else ResOutcome.notFound,
      runtimeZip := if rtOk then zdRt1 else zdOpenFail,
      launchOk := launchOk }

/-- The paths the run writes resource or archive bytes to: the two fixed
archive files, the target executable, and one path per archive entry —
each the run directory extended with the entry's stored name. -/
def writeTargets (env : MainEnv) (runDir : FPath) : List FPath :=
  [runDir ++ [appZipName], runDir ++ [runtimeZipName], runDir ++ splitName env.exeFile] ++
    (env.appZip.entries ++ env.runtimeZip.entries).map (fun e => runDir ++ splitName e.name)

/-- An empty initial state (no filesystem contents) for determinism runs. -/
def stEmptyRun : St := ⟨⟨[], []⟩, [], []⟩

/-- An initial state in which the run directory already exists. -/
def stDirPresent : St := ⟨⟨[], [runDir0]⟩, [], []⟩

/-- The state right after `getRunDirectory` has created `C:\Temp\App` on
the base filesystem. -/
def stRunDirMade : St :=
  ⟨⟨[], [["C:".toList], ["C:".toList, "Temp".toList], runDir0]⟩,
   [Event.createDir runDir0], []⟩

/-! Helper lemmas about the pure string functions. -/

/-- The whitespace set written out. -/
theorem whitespaceChars_eq :
    whitespaceChars = [' ', '\t', '\n', '\r', '\x0c', '\x0b'] := by decide

/-- No whitespace character is in the launcher's unsafe set. -/
theorem ws_not_unsafe {c : Char} (h : c ∈ whitespaceChars) :
    unsafeChars.contains c = false := by
  rw [whitespaceChars_eq] at h
  simp only [List.mem_cons, List.not_mem_nil, or_false] at h
  rcases h with rfl | rfl | rfl | rfl | rfl | rfl <;> decide

/-- The head of a `dropWhile` residue fails the predicate. -/
theorem dropWhile_head?_false {p : Char → Bool} {l : Str} {c : Char}
    (h : (l.dropWhile p).head? = some c) : p c = false := by
  induction l with
  | nil => simp [List.dropWhile] at h
  | cons a t ih =>
    rw [List.dropWhile_cons] at h
    by_cases hp : p a
    · rw [if_pos hp] at h
      exact ih h
    · rw [if_neg hp] at h
      simp only [List.head?_cons, Option.some.injEq] at h
      subst h
      exact Bool.eq_false_iff.mpr hp

/-- A suffix of a reversed list, reversed, is a prefix. -/
theorem reverse_suffix_to_front {S l : Str} (h : S <:+ l.reverse) :
    S.reverse <+: l := by
  have h2 : S.reverse <+: l.reverse.reverse := List.reverse_prefix.mpr h
  simpa using h2

/-- C10: `sanitizeFileName` trims all leading and trailing whitespace after
the character replacement and before the emptiness check: a name made only
of whitespace yields the default token, the first and last characters of
the result are never whitespace, and a non-default result is a contiguous
slice of the character-replaced input. -/
theorem c10_sanitize_trims_whitespace (name : Str) :
    ((∀ c ∈ name, whitespaceChars.contains c = true) →
      sanitizeFileName name = defaultSanitizedName)
    ∧ (∀ c, (sanitizeFileName name).head? = some c →
        whitespaceChars.contains c = false)
    ∧ (∀ c, (sanitizeFileName name).getLast? = some c →
        whitespaceChars.contains c = false)
    ∧ (sanitizeFileName name = defaultSanitizedName ∨
        sanitizeFileName name <:+: name.map replaceChar) := by
  simp only [sanitizeFileName]
  set R := name.map replaceChar with hR
  set F := R.dropWhile (fun c => whitespaceChars.contains c) with hF
  set T := (F.reverse.dropWhile (fun c => whitespaceChars.contains c)).reverse with hT
  refine ⟨?_, ?_, ?_, ?_⟩
  · intro h
    have hRname : R = name := by
      rw [hR]
      have : ∀ c ∈ name, replaceChar c = c := by
        intro c hc
        have hwm : c ∈ whitespaceChars := List.elem_iff.mp (h c hc)
        have hnm : c ∉ unsafeChars := by simpa using ws_not_unsafe hwm
        simp [replaceChar, hnm]
      rw [List.map_congr_left this]
      simp
    have hFnil : F = [] := by
      rw [hF, hRname]
      exact List.dropWhile_eq_nil_iff.mpr h
    have hTnil : T = [] := by rw [hT, hFnil]; rfl
    rw [if_pos hTnil]
  · intro c hc
    by_cases hTnil : T = []
    · rw [if_pos hTnil] at hc
      have : c = 'd' := by
        rw [show defaultSanitizedName.head? = some 'd' from rfl] at hc
        exact (Option.some.injEq _ _).mp hc.symm
      subst this
      decide
    · rw [if_neg hTnil] at hc
      have hpre : T <+: F :=
        reverse_suffix_to_front (List.dropWhile_suffix _)
      obtain ⟨t, ht⟩ := hpre
      have : F.head? = T.head? := by
        rw [← ht]
        exact List.head?_append_of_ne_nil _ hTnil
      exact dropWhile_head?_false (this.symm ▸ hc)
  · intro c hc
    by_cases hTnil : T = []
    · rw [if_pos hTnil] at hc
      have : c = 'e' := by
        rw [show defaultSanitizedName.getLast? = some 'e' from rfl] at hc
        exact (Option.some.injEq _ _).mp hc.symm
      subst this
      decide
    · rw [if_neg hTnil] at hc
      rw [hT, List.getLast?_reverse] at hc
      exact dropWhile_head?_false hc
  · by_cases hTnil : T = []
    · left; rw [if_pos hTnil]
    · right
      rw [if_neg hTnil]
      have hpre : T <+: F :=
        reverse_suffix_to_front (List.dropWhile_suffix _)
      have hsuf : F <:+ R := List.dropWhile_suffix _
      exact hpre.isInfix.trans hsuf.isInfix

/-- C10 witness: a name of whitespace only is sanitized to the default
token, whose first and last characters are not whitespace. -/
theorem c10_sanitize_trims_whitespace_witness :
    sanitizeFileName ("  \t ".toList) = defaultSanitizedName ∧
    whitespaceChars.contains 'd' = false := by
  refine ⟨(c10_sanitize_trims_whitespace ("  \t ".toList)).1 (by decide), ?_⟩
  exact (c10_sanitize_trims_whitespace ("  \t ".toList)).2.1 'd' (by decide)

/-- C1: contrary to the claim (and to the function's own doc comment), the
output of `sanitizeFileName` is not restricted to alphanumerics, `-` and
`_`: only the eleven characters of `unsafeChars` are replaced.  On the
input `a!b` the `!` — not alphanumeric, not `-`, not `_` — survives
unchanged, because `!` is not in the unsafe set the loop actually
consults. -/
theorem c1_sanitize_misses_disallowed_chars :
    sanitizeFileName ("a!b".toList) = "a!b".toList
    ∧ '!' ∈ sanitizeFileName ("a!b".toList)
    ∧ specAllowedChar '!' = false
    ∧ unsafeChars.contains '!' = false := by
  decide

/-- C2: contrary to the claim (and to `main`'s own doc comment
`@return 0 if successful, 1 otherwise`), the launcher never returns exit
status 1 in its active configuration: when run-directory creation fails the
`runtime_error` rethrown by `getRunDirectory` escapes `main` uncaught
(abnormal termination before any extraction event, with the failure
reported), and every run that returns normally returns 0 — including runs
whose child fails to launch or exits nonzero, whose exit code the launcher
never reads. -/
theorem c2_exit_status_never_one :
    (mainRun envDirFail fsTempBase).1 = RunOutcome.terminated
    ∧ (mainRun envDirFail fsTempBase).2.events = []
    ∧ (mainRun envDirFail fsTempBase).2.errors = [errDirCreation]
    ∧ (mainRun envAllOk fsTempBase).1 = RunOutcome.exited 0
    ∧ (mainRun envLaunchFail fsTempBase).1 = RunOutcome.exited 0
    ∧ (mainRun envChild7 fsTempBase).1 = RunOutcome.exited 0 := by
  decide

/-- C5: extracting the archive `a.txt` = "hi", `sub/`, `sub/b.txt` = "x"
into the destination yields exactly the claimed tree, and the archive file
itself is gone afterward (no error is reported). -/
theorem c5_roundtrip_extraction :
    (unzipFile zdRound zp0 dst0 stArc).fs.readFile (dst0 ++ ["a.txt".toList])
        = some ("hi".toList)
    ∧ (unzipFile zdRound zp0 dst0 stArc).fs.dirExistsAt (dst0 ++ ["sub".toList]) = true
    ∧ (unzipFile zdRound zp0 dst0 stArc).fs.readFile
        (dst0 ++ ["sub".toList, "b.txt".toList]) = some ("x".toList)
    ∧ (unzipFile zdRound zp0 dst0 stArc).fs.existsPath zp0 = false
    ∧ (unzipFile zdRound zp0 dst0 stArc).errors = [] := by
  decide

/-- C6: extraction of an archive with zero entries reports exactly one
failure and does nothing: the filesystem and the action trace are exactly
those before the call. -/
theorem c6_zero_entry_archive (zd : ZipData) (zipPath extractDir : FPath)
    (st : St) (h : zd.entries = []) :
    (unzipFile zd zipPath extractDir st).fs = st.fs
    ∧ (unzipFile zd zipPath extractDir st).events = st.events
    ∧ (unzipFile zd zipPath extractDir st).errors.length = st.errors.length + 1 := by
  unfold unzipFile
  cases hb : (st.fs.existsPath zipPath && zd.valid) with
  | false => simp [St.report]
  | true => simp [h, St.report]

/-- C6 witness: the zero-entry archive at the concrete destination. -/
theorem c6_zero_entry_archive_witness :
    (unzipFile zdEmpty zp0 dst0 stArc).fs = stArc.fs
    ∧ (unzipFile zdEmpty zp0 dst0 stArc).events = stArc.events
    ∧ (unzipFile zdEmpty zp0 dst0 stArc).errors.length = stArc.errors.length + 1 :=
  c6_zero_entry_archive zdEmpty zp0 dst0 stArc (by decide)

/-- C8: `deleteFilesAndDirectories` on a zip path and a directory path that
do not exist is a strict no-op: the whole state — filesystem, trace, and
error stream — is returned unchanged. -/
theorem c8_delete_nonexistent_noop (zipPath extractDir : FPath) (st : St)
    (h1 : st.fs.existsPath zipPath = false)
    (h2 : st.fs.existsPath extractDir = false) :
    deleteFilesAndDirectories zipPath extractDir st = st := by
  unfold deleteFilesAndDirectories deleteDirPart
  simp [h1, h2]

/-- C8 witness: deleting two absent paths leaves the concrete state
untouched. -/
theorem c8_delete_nonexistent_noop_witness :
    deleteFilesAndDirectories ["nope".toList] ["nada".toList] stArc = stArc :=
  c8_delete_nonexistent_noop _ _ _ (by decide) (by decide)

/-- The run-directory path that `getRunDirectory` hands back is always the
one computed by `runDirPath` from the executable name and the observed
`GetTempPath` outcome alone. -/
theorem getRunDirectory_path {tempResult : Option Str} {createDirFails : Bool}
    {exeFile : Str} {st : St} {p : FPath}
    (h : (getRunDirectory tempResult createDirFails exeFile st).2 = some p) :
    p = runDirPath tempResult exeFile := by
  simp only [getRunDirectory] at h
  split at h
  · simpa using h.symm
  · split at h
    · simp at h
    · simpa using h.symm

/-- C9: directory resolution is deterministic — two runs of
`getRunDirectory` with the same executable name and the same temp-directory
outcome yield the same path whenever they yield one, whatever the prior
filesystem state and whatever the creation outcome. -/
theorem c9_run_directory_deterministic
    (tempResult : Option Str) (exeFile : Str) (cf₁ cf₂ : Bool)
    (st₁ st₂ : St) (p₁ p₂ : FPath)
    (h₁ : (getRunDirectory tempResult cf₁ exeFile st₁).2 = some p₁)
    (h₂ : (getRunDirectory tempResult cf₂ exeFile st₂).2 = some p₂) :
    p₁ = p₂ :=
  (getRunDirectory_path h₁).trans (getRunDirectory_path h₂).symm

/-- C9 witness: a run that creates `C:\Temp\App` and a run that finds it
already present resolve the same path. -/
theorem c9_run_directory_deterministic_witness : runDir0 = runDir0 :=
  c9_run_directory_deterministic (some tempS) exeN false true
    stEmptyRun stDirPresent runDir0 runDir0 (by decide) (by decide)

/-- C7: in every run whose application-archive resource identifier is
invalid (`FindResource` fails), whatever the runtime-resource and launch
outcomes: at least one error is reported, the launch step is still reached
(a launch of `<runDir>\App.exe` is attempted), and the final cleanup still
removes the working directory exactly once. -/
theorem c7_missing_resource_still_launches_and_cleans (rtOk launchOk : Bool) :
    (mainRun (envMissingApp rtOk launchOk) fsTempBase).2.errors.isEmpty = false
    ∧ (mainRun (envMissingApp rtOk launchOk) fsTempBase).2.events.contains
        (Event.launch (runDir0 ++ splitName exeN)) = true
    ∧ (mainRun (envMissingApp rtOk launchOk) fsTempBase).2.events.count
        (Event.removeTree runDir0) = 1 := by
  cases rtOk <;> cases launchOk <;> decide

/-- C7 witness: the invalid-app-resource run with a found runtime resource
and a failing launch reports at least one error. -/
theorem c7_missing_resource_witness :
    (mainRun (envMissingApp true false) fsTempBase).2.errors.isEmpty = false :=
  (c7_missing_resource_still_launches_and_cleans true false).1

/-- Reporting an error strictly grows the error log. -/
theorem report_errors_ne {st : St} {m : String}
    (h : (St.report st m).errors = st.errors) : False := by
  simp only [St.report] at h
  have := congrArg List.length h
  simp at this

/-- The directory-creation fold never touches the error log. -/
theorem mkdirFold_errors (qs : List FPath) (acc : St × Bool) :
    ((qs.foldl
        (fun acc q => if acc.1.fs.dirExistsAt q then acc else (acc.1.doMkdir q, true))
        acc).1).errors = acc.1.errors := by
  induction qs generalizing acc with
  | nil => rfl
  | cons q rest ih =>
    rw [List.foldl_cons, ih]
    by_cases hq : acc.1.fs.dirExistsAt q
    · rw [if_pos hq]
    · rw [if_neg hq]
      rfl

/-- `createDirectories` never touches the error log. -/
theorem createDirectories_errors (p : FPath) (st : St) :
    (createDirectories p st).1.errors = st.errors :=
  mkdirFold_errors _ _

/-- The entry loop of `unzipFile` never touches the error log (failures are
thrown to the caller, which reports them). -/
theorem unzipEntries_errors (dst : FPath) (es : List ZipEntry) (st : St) :
    (unzipEntries dst es st).1.errors = st.errors := by
  induction es generalizing st with
  | nil => rfl
  | cons e rest ih =>
    unfold unzipEntries
    by_cases h512 : 512 ≤ e.name.length
    · rw [if_pos h512]
    · rw [if_neg h512]
      by_cases hdir : isDirEntryName e.name
      · rw [if_pos hdir]
        by_cases hcr : (createDirectories (dst ++ splitName e.name) st).2
        · rw [if_pos hcr, ih]
          exact createDirectories_errors _ _
        · rw [if_neg hcr]
          exact createDirectories_errors _ _
      · rw [if_neg hdir]
        by_cases hpar : st.fs.dirExistsAt (dst ++ splitName e.name).dropLast
        · rw [if_pos hpar, ih]
          rfl
        · rw [if_neg hpar]

/-- After `fs::remove` of a path, the path no longer exists. -/
theorem removePathFs_not_exists (fs : FS) (p : FPath) :
    (fs.removePathFs p).existsPath p = false := by
  simp only [FS.removePathFs, FS.existsPath, Bool.or_eq_false_iff,
    List.any_eq_false, List.mem_filter]
  constructor
  · rintro x ⟨_, hbx⟩
    simpa using hbx
  · rintro x ⟨_, hbx⟩
    simpa using hbx

/-- C3 counterexample: the claim "the source archive file is deleted once
extraction ends, whether it succeeds or aborts" is false on the code — the
`fs::remove` sits after the entry loop inside the `try`, so any abort skips
it.  With an unreadable archive (open failure) and with an archive whose
second entry fails after the first was extracted, the archive file still
exists when `unzipFile` returns, and the abort was reported. -/
theorem c3_abort_leaves_archive_counterexample :
    ((unzipFile zdOpenFail zp0 dst0 stArc).fs.existsPath zp0 = true
      ∧ (unzipFile zdOpenFail zp0 dst0 stArc).errors = [errOpenZip])
    ∧ ((unzipFile zdPartial zp0 dst0 stArc).fs.existsPath zp0 = true
      ∧ (unzipFile zdPartial zp0 dst0 stArc).fs.readFile (dst0 ++ ["a.txt".toList])
          = some ("hi".toList)
      ∧ (unzipFile zdPartial zp0 dst0 stArc).errors = [errExtractFile]) := by
  decide

/-- Equation: an unopenable archive (absent file or invalid bytes) makes
`unzipFile` report the open failure and return. -/
theorem unzipFile_eq_open_fail {zd : ZipData} {zipPath extractDir : FPath} {st : St}
    (hb : (st.fs.existsPath zipPath && zd.valid) = false) :
    unzipFile zd zipPath extractDir st = st.report errOpenZip := by
  unfold unzipFile
  rw [hb]
  rfl

/-- Equation: an archive that opens but has zero entries makes `unzipFile`
report and return. -/
theorem unzipFile_eq_no_files {zd : ZipData} {zipPath extractDir : FPath} {st : St}
    (hb : (st.fs.existsPath zipPath && zd.valid) = true)
    (hn : (zd.entries.length == 0) = true) :
    unzipFile zd zipPath extractDir st = st.report errNoFilesInZip := by
  unfold unzipFile
  rw [hb, hn]
  rfl

/-- Equation: a failing entry loop makes `unzipFile` report the thrown
message on the partially-extracted state — the archive removal is never
reached. -/
theorem unzipFile_eq_entries_fail {zd : ZipData} {zipPath extractDir : FPath}
    {st st' : St} {msg : String}
    (hb : (st.fs.existsPath zipPath && zd.valid) = true)
    (hn : (zd.entries.length == 0) = false)
    (heq : unzipEntries extractDir zd.entries st = (st', some msg)) :
    unzipFile zd zipPath extractDir st = st'.report msg := by
  unfold unzipFile
  rw [hb, hn, heq]
  rfl

/-- Equation: a completed entry loop reaches the archive-removal step. -/
theorem unzipFile_eq_entries_ok {zd : ZipData} {zipPath extractDir : FPath}
    {st st' : St}
    (hb : (st.fs.existsPath zipPath && zd.valid) = true)
    (hn : (zd.entries.length == 0) = false)
    (heq : unzipEntries extractDir zd.entries st = (st', none)) :
    unzipFile zd zipPath extractDir st =
      (if st'.fs.existsPath zipPath = true then
        (if zd.removeThrows = true then st'.report errRemoveZip
         else st'.doRemoveFile zipPath)
       else st') := by
  unfold unzipFile
  rw [hb, hn, heq]
  rfl

/-- C3 amended: `unzipFile` deletes the source archive only when extraction
runs to completion: a run that reports nothing leaves no archive file
behind; an open failure and a zero-entry archive return the input state
with exactly the failure reported (the archive untouched); and in every
case at most one failure is reported and the call returns normally. -/
theorem c3_archive_deleted_only_on_success (zd : ZipData)
    (zipPath extractDir : FPath) (st : St) :
    ((unzipFile zd zipPath extractDir st).errors = st.errors →
      (unzipFile zd zipPath extractDir st).fs.existsPath zipPath = false)
    ∧ (zd.valid = false →
        unzipFile zd zipPath extractDir st = st.report errOpenZip)
    ∧ (st.fs.existsPath zipPath = true → zd.valid = true → zd.entries = [] →
        unzipFile zd zipPath extractDir st = st.report errNoFilesInZip)
    ∧ ((unzipFile zd zipPath extractDir st).errors = st.errors ∨
        ∃ m, (unzipFile zd zipPath extractDir st).errors = st.errors ++ [m]) := by
  by_cases hb : (st.fs.existsPath zipPath && zd.valid) = true
  · by_cases hn : (zd.entries.length == 0) = true
    · rw [unzipFile_eq_no_files hb hn]
      refine ⟨fun h => (report_errors_ne h).elim, ?_, fun _ _ _ => rfl, ?_⟩
      · intro hv
        rw [hv, Bool.and_false] at hb
        exact absurd hb (by simp)
      · right
        exact ⟨errNoFilesInZip, rfl⟩
    · have hn' : (zd.entries.length == 0) = false := Bool.eq_false_iff.mpr hn
      rcases heq : unzipEntries extractDir zd.entries st with ⟨st', msg?⟩
      have herr : st'.errors = st.errors := by
        have h0 := unzipEntries_errors extractDir zd.entries st
        rw [heq] at h0
        exact h0
      cases msg? with
      | some msg =>
        rw [unzipFile_eq_entries_fail hb hn' heq]
        refine ⟨?_, ?_, ?_, ?_⟩
        · intro h
          simp only [St.report] at h
          rw [herr] at h
          have := congrArg List.length h
          simp at this
        · intro hv
          rw [hv, Bool.and_false] at hb
          exact absurd hb (by simp)
        · intro _ _ hz
          rw [hz] at hn
          simp at hn
        · right
          exact ⟨msg, by simp [St.report, herr]⟩
      | none =>
        rw [unzipFile_eq_entries_ok hb hn' heq]
        by_cases he : st'.fs.existsPath zipPath = true
        · rw [if_pos he]
          by_cases ht : zd.removeThrows = true
          · rw [if_pos ht]
            refine ⟨fun h => ?_, ?_, ?_, ?_⟩
            · simp only [St.report] at h
              rw [herr] at h
              have := congrArg List.length h
              simp at this
            · intro hv
              rw [hv, Bool.and_false] at hb
              exact absurd hb (by simp)
            · intro _ _ hz
              rw [hz] at hn
              simp at hn
            · right
              exact ⟨errRemoveZip, by simp [St.report, herr]⟩
          · rw [if_neg ht]
            refine ⟨fun _ => ?_, ?_, ?_, ?_⟩
            · exact removePathFs_not_exists st'.fs zipPath
            · intro hv
              rw [hv, Bool.and_false] at hb
              exact absurd hb (by simp)
            · intro _ _ hz
              rw [hz] at hn
              simp at hn
            · left
              simpa [St.doRemoveFile] using herr
        · rw [if_neg he]
          refine ⟨fun _ => ?_, ?_, ?_, ?_⟩
          · simpa using he
          · intro hv
            rw [hv, Bool.and_false] at hb
            exact absurd hb (by simp)
          · intro _ _ hz
            rw [hz] at hn
            simp at hn
          · left
            exact herr
  · have hb' : (st.fs.existsPath zipPath && zd.valid) = false :=
      Bool.eq_false_iff.mpr hb
    rw [unzipFile_eq_open_fail hb']
    refine ⟨fun h => (report_errors_ne h).elim, fun _ => rfl, ?_, ?_⟩
    · intro hex hv _
      rw [hex, hv] at hb'
      simp at hb'
    · right
      exact ⟨errOpenZip, rfl⟩

/-- C3 witness: the successful round-trip run reports nothing, and indeed
the archive file is gone afterward. -/
theorem c3_archive_deleted_only_on_success_witness :
    (unzipFile zdRound zp0 dst0 stArc).fs.existsPath zp0 = false :=
  (c3_archive_deleted_only_on_success zdRound zp0 dst0 stArc).1 (by decide)

/-- Folding `normStep` over components free of `..` just appends them
(minus `.` components). -/
theorem normStep_foldl_no_dotdot (cs : FPath) :
    ∀ (acc : FPath), ("..".toList) ∉ cs →
      cs.foldl normStep acc = acc ++ cs.filter (fun c => !(c == ".".toList)) := by
  induction cs with
  | nil => intro acc _; simp
  | cons c rest ih =>
    intro acc hcs
    have hc2 : c ≠ "..".toList := fun hh => hcs (by rw [hh]; exact List.mem_cons_self _ _)
    have hrest : ("..".toList) ∉ rest := fun hh => hcs (List.mem_cons_of_mem _ hh)
    rw [List.foldl_cons]
    by_cases hdot : c = ".".toList
    · subst hdot
      rw [show normStep acc (".".toList) = acc from by simp [normStep], ih acc hrest]
      simp [List.filter_cons]
    · have hdot' : ¬(c = ['.']) := by simpa using hdot
      have hc2' : ¬(c = ['.', '.']) := by simpa using hc2
      rw [show normStep acc c = acc ++ [c] from by simp [normStep, hdot', hc2'],
        ih _ hrest]
      simp [List.filter_cons, hdot']

/-- Resolving a path extended by `..`-free components keeps the base's
resolution as a prefix. -/
theorem normalizePath_append_no_dotdot (r comps : FPath)
    (h : ("..".toList) ∉ comps) :
    normalizePath (r ++ comps) =
      normalizePath r ++ comps.filter (fun c => !(c == ".".toList)) := by
  unfold normalizePath
  rw [List.foldl_append]
  exact normStep_foldl_no_dotdot comps _ h

/-- A `..`-free extension of a directory resolves under that directory. -/
theorem normalizePath_prefix_of_no_dotdot (r comps : FPath)
    (h : ("..".toList) ∉ comps) :
    (normalizePath r).isPrefixOf (normalizePath (r ++ comps)) = true := by
  rw [normalizePath_append_no_dotdot r comps h, List.isPrefixOf_iff_prefix]
  exact List.prefix_append _ _

/-- Appending one regular component strictly changes the resolved path. -/
theorem normalizePath_snoc_ne (r : FPath) (nm : Str)
    (h1 : nm ≠ "..".toList) (h2 : nm ≠ ".".toList) :
    (normalizePath r == normalizePath (r ++ [nm])) = false := by
  have h2' : ¬(nm = ['.']) := by simpa using h2
  rw [normalizePath_append_no_dotdot r [nm] (by simpa using Ne.symm h1)]
  rw [show List.filter (fun c => !(c == ".".toList)) [nm] = [nm] from by simp [h2']]
  rw [beq_eq_false_iff_ne]
  intro hEq
  have := congrArg List.length hEq
  simp at this

/-- Equation: removing a tree records one `removeTree` event. -/
theorem doRemoveTree_fst_events (st : St) (p : FPath) :
    (st.doRemoveTree p).1.events = st.events ++ [Event.removeTree p] := rfl

/-- The trace only grows across `St.report`. -/
theorem report_events_eq (st : St) (m : String) :
    (St.report st m).events = st.events := rfl

/-- The folded directory creation only appends to the trace. -/
theorem mkdirFold_events_mono (qs : List FPath) :
    ∀ (acc : St × Bool),
      acc.1.events <+:
        ((qs.foldl
          (fun acc q => if acc.1.fs.dirExistsAt q then acc else (acc.1.doMkdir q, true))
          acc).1).events := by
  induction qs with
  | nil => exact fun acc => List.prefix_refl _
  | cons q rest ih =>
    intro acc
    rw [List.foldl_cons]
    by_cases hq : acc.1.fs.dirExistsAt q
    · rw [if_pos hq]
      exact ih acc
    · rw [if_neg hq]
      refine List.IsPrefix.trans ?_ (ih _)
      exact ⟨[Event.createDir q], rfl⟩

/-- `createDirectories` only appends to the trace. -/
theorem createDirectories_events_mono (p : FPath) (st : St) :
    st.events <+: (createDirectories p st).1.events :=
  mkdirFold_events_mono _ (st, false)

/-- The entry loop only appends to the trace. -/
theorem unzipEntries_events_mono (dst : FPath) (es : List ZipEntry) :
    ∀ (st : St), st.events <+: (unzipEntries dst es st).1.events := by
  induction es with
  | nil => exact fun st => List.prefix_refl _
  | cons e rest ih =>
    intro st
    unfold unzipEntries
    by_cases h512 : 512 ≤ e.name.length
    · rw [if_pos h512]
    · rw [if_neg h512]
      by_cases hdir : isDirEntryName e.name
      · rw [if_pos hdir]
        by_cases hcr : (createDirectories (dst ++ splitName e.name) st).2
        · rw [if_pos hcr]
          exact (createDirectories_events_mono _ st).trans (ih _)
        · rw [if_neg hcr]
          exact createDirectories_events_mono _ st
      · rw [if_neg hdir]
        by_cases hpar : st.fs.dirExistsAt (dst ++ splitName e.name).dropLast
        · rw [if_pos hpar]
          refine List.IsPrefix.trans ?_ (ih _)
          exact ⟨[Event.writeFile (dst ++ splitName e.name) e.data], rfl⟩
        · rw [if_neg hpar]

/-- `unzipFile` only appends to the trace. -/
theorem unzipFile_events_mono (zd : ZipData) (zipPath dst : FPath) (st : St) :
    st.events <+: (unzipFile zd zipPath dst st).events := by
  by_cases hb : (st.fs.existsPath zipPath && zd.valid) = true
  · by_cases hn : (zd.entries.length == 0) = true
    · rw [unzipFile_eq_no_files hb hn]
      exact List.prefix_refl _
    · have hn' : (zd.entries.length == 0) = false := Bool.eq_false_iff.mpr hn
      rcases heq : unzipEntries dst zd.entries st with ⟨st', msg?⟩
      have hpre : st.events <+: st'.events := by
        have h0 := unzipEntries_events_mono dst zd.entries st
        rw [heq] at h0
        exact h0
      cases msg? with
      | some msg =>
        rw [unzipFile_eq_entries_fail hb hn' heq]
        exact hpre
      | none =>
        rw [unzipFile_eq_entries_ok hb hn' heq]
        by_cases he : st'.fs.existsPath zipPath = true
        · rw [if_pos he]
          by_cases ht : zd.removeThrows = true
          · rw [if_pos ht]
            exact hpre
          · rw [if_neg ht]
            exact hpre.trans ⟨[Event.removeFile zipPath], rfl⟩
        · rw [if_neg he]
          exact hpre
  · rw [unzipFile_eq_open_fail (Bool.eq_false_iff.mpr hb)]
    exact List.prefix_refl _

/-- `extractResource` only appends to the trace. -/
theorem extractResource_events_mono (res : ResOutcome) (p : FPath) (st : St) :
    st.events <+: (extractResource res p st).events := by
  cases res with
  | okData data =>
    unfold extractResource
    rw [show (IN_MEMORY_EXECUTION : Bool) = false from rfl]
    simp only [Bool.false_eq_true, if_false]
    by_cases h1 : p.isEmpty
    · rw [if_pos h1]
      exact List.prefix_refl _
    · rw [if_neg h1]
      by_cases h2 : st.fs.dirExistsAt p.dropLast
      · simp only [h2, Bool.not_true, Bool.false_eq_true, if_false]
        exact ⟨[Event.writeFile p data], rfl⟩
      · simp only [Bool.eq_false_iff.mpr h2, Bool.not_false, if_true]
        exact List.prefix_refl _
  | noModule => exact List.prefix_refl _
  | notFound => exact List.prefix_refl _
  | zeroSize => exact List.prefix_refl _
  | loadFail => exact List.prefix_refl _
  | lockFail => exact List.prefix_refl _

/-- The launch block only appends to the trace. -/
theorem launchStep_events_mono (env : MainEnv) (runDir : FPath) (st₆ : St) :
    st₆.events <+: (launchStep env runDir st₆).events := by
  unfold launchStep
  by_cases hl : env.launchOk
  · rw [if_pos hl]
    exact ⟨[Event.launch (runDir ++ splitName env.exeFile), Event.waitChild],
      by simp [St.emit]⟩
  · rw [if_neg hl]
    exact ⟨[Event.launch (runDir ++ splitName env.exeFile)], rfl⟩

/-- The whole pre-cleanup pipeline only appends to the trace. -/
theorem pipelineToLaunch_events_mono (env : MainEnv) (runDir : FPath) (st₁ : St) :
    st₁.events <+: (pipelineToLaunch env runDir st₁).events := by
  unfold pipelineToLaunch
  exact ((((((extractResource_events_mono env.appRes _ st₁).trans
    (extractResource_events_mono env.runtimeRes _ _)).trans
    (extractResource_events_mono env.exeRes _ _)).trans
    (unzipFile_events_mono env.appZip _ _ _)).trans
    (unzipFile_events_mono env.runtimeZip _ _ _)).trans
    (launchStep_events_mono env runDir _))

/-- Predicate preservation across `extractResource`: its only new event is
a write to its output path. -/
theorem extractResource_events_pres (P : Event → Prop) (res : ResOutcome)
    (outputPath : FPath) (st : St)
    (hW : ∀ d, P (Event.writeFile outputPath d))
    (h : ∀ ev ∈ st.events, P ev) :
    ∀ ev ∈ (extractResource res outputPath st).events, P ev := by
  cases res with
  | okData data =>
    unfold extractResource
    rw [show (IN_MEMORY_EXECUTION : Bool) = false from rfl]
    simp only [Bool.false_eq_true, if_false]
    by_cases h1 : outputPath.isEmpty
    · rw [if_pos h1]
      exact h
    · rw [if_neg h1]
      by_cases h2 : st.fs.dirExistsAt outputPath.dropLast
      · simp only [h2, Bool.not_true, Bool.false_eq_true, if_false]
        intro ev hev
        simp only [St.doWrite] at hev
        rcases List.mem_append.mp hev with h3 | h3
        · exact h ev h3
        · rw [List.mem_singleton] at h3
          subst h3
          exact hW data
      · simp only [Bool.eq_false_iff.mpr h2, Bool.not_false, if_true]
        exact h
  | noModule => exact h
  | notFound => exact h
  | zeroSize => exact h
  | loadFail => exact h
  | lockFail => exact h

/-- Predicate preservation across the directory-creation fold: its only
new events are directory creations. -/
theorem mkdirFold_events_pres (P : Event → Prop)
    (hC : ∀ q, P (Event.createDir q)) (qs : List FPath) :
    ∀ (acc : St × Bool), (∀ ev ∈ acc.1.events, P ev) →
      ∀ ev ∈ ((qs.foldl
        (fun acc q => if acc.1.fs.dirExistsAt q then acc else (acc.1.doMkdir q, true))
        acc).1).events, P ev := by
  induction qs with
  | nil => exact fun acc h => h
  | cons q rest ih =>
    intro acc h
    rw [List.foldl_cons]
    apply ih
    by_cases hq : acc.1.fs.dirExistsAt q
    · rw [if_pos hq]
      exact h
    · rw [if_neg hq]
      intro ev hev
      simp only [St.doMkdir] at hev
      rcases List.mem_append.mp hev with h1 | h1
      · exact h ev h1
      · rw [List.mem_singleton] at h1
        subst h1
        exact hC q

/-- Predicate preservation across `createDirectories`. -/
theorem createDirectories_events_pres (P : Event → Prop) (p : FPath) (st : St)
    (hC : ∀ q, P (Event.createDir q))
    (h : ∀ ev ∈ st.events, P ev) :
    ∀ ev ∈ (createDirectories p st).1.events, P ev :=
  mkdirFold_events_pres P hC _ (st, false) h

/-- Predicate preservation across the entry loop: its new events are
directory creations and writes to destination-plus-entry-name paths. -/
theorem unzipEntries_events_pres (P : Event → Prop) (dst : FPath)
    (hC : ∀ q, P (Event.createDir q)) :
    ∀ (es : List ZipEntry) (st : St),
      (∀ en ∈ es, ∀ d, P (Event.writeFile (dst ++ splitName en.name) d)) →
      (∀ ev ∈ st.events, P ev) →
      ∀ ev ∈ (unzipEntries dst es st).1.events, P ev := by
  intro es
  induction es with
  | nil => exact fun st _ h => h
  | cons en rest ih =>
    intro st hW h
    unfold unzipEntries
    by_cases h512 : 512 ≤ en.name.length
    · rw [if_pos h512]
      exact h
    · rw [if_neg h512]
      by_cases hdir : isDirEntryName en.name
      · rw [if_pos hdir]
        have hcd := createDirectories_events_pres P (dst ++ splitName en.name) st hC h
        by_cases hcr : (createDirectories (dst ++ splitName en.name) st).2
        · rw [if_pos hcr]
          exact ih _ (fun x hx d => hW x (List.mem_cons_of_mem en hx) d) hcd
        · rw [if_neg hcr]
          exact hcd
      · rw [if_neg hdir]
        by_cases hpar : st.fs.dirExistsAt (dst ++ splitName en.name).dropLast
        · rw [if_pos hpar]
          apply ih _ (fun x hx d => hW x (List.mem_cons_of_mem en hx) d)
          intro ev hev
          simp only [St.doWrite] at hev
          rcases List.mem_append.mp hev with h1 | h1
          · exact h ev h1
          · rw [List.mem_singleton] at h1
            subst h1
            exact hW en (List.mem_cons_self en rest) en.data
        · rw [if_neg hpar]
          exact h

/-- Predicate preservation across `unzipFile`: its new events are those of
the entry loop plus the removal of the consumed archive. -/
theorem unzipFile_events_pres (P : Event → Prop) (zd : ZipData)
    (zipPath dst : FPath) (st : St)
    (hC : ∀ q, P (Event.createDir q))
    (hW : ∀ en ∈ zd.entries, ∀ d, P (Event.writeFile (dst ++ splitName en.name) d))
    (hR : P (Event.removeFile zipPath))
    (h : ∀ ev ∈ st.events, P ev) :
    ∀ ev ∈ (unzipFile zd zipPath dst st).events, P ev := by
  by_cases hb : (st.fs.existsPath zipPath && zd.valid) = true
  · by_cases hn : (zd.entries.length == 0) = true
    · rw [unzipFile_eq_no_files hb hn]
      exact h
    · have hn' : (zd.entries.length == 0) = false := Bool.eq_false_iff.mpr hn
      rcases heq : unzipEntries dst zd.entries st with ⟨st', msg?⟩
      have hst' : ∀ ev ∈ st'.events, P ev := by
        have h0 := unzipEntries_events_pres P dst hC zd.entries st hW h
        rw [heq] at h0
        exact h0
      cases msg? with
      | some msg =>
        rw [unzipFile_eq_entries_fail hb hn' heq]
        exact hst'
      | none =>
        rw [unzipFile_eq_entries_ok hb hn' heq]
        by_cases he : st'.fs.existsPath zipPath = true
        · rw [if_pos he]
          by_cases ht : zd.removeThrows = true
          · rw [if_pos ht]
            exact hst'
          · rw [if_neg ht]
            intro ev hev
            simp only [St.doRemoveFile] at hev
            rcases List.mem_append.mp hev with h1 | h1
            · exact hst' ev h1
            · rw [List.mem_singleton] at h1
              subst h1
              exact hR
        · rw [if_neg he]
          exact hst'
  · rw [unzipFile_eq_open_fail (Bool.eq_false_iff.mpr hb)]
    exact h

/-- Predicate preservation across the launch block: its new events are the
launch attempt and the wait. -/
theorem launchStep_events_pres (P : Event → Prop) (env : MainEnv)
    (runDir : FPath) (st₆ : St)
    (hL : P (Event.launch (runDir ++ splitName env.exeFile)))
    (hWt : P Event.waitChild)
    (h : ∀ ev ∈ st₆.events, P ev) :
    ∀ ev ∈ (launchStep env runDir st₆).events, P ev := by
  unfold launchStep
  have hemit : ∀ ev ∈ (st₆.emit (Event.launch (runDir ++ splitName env.exeFile))).events, P ev := by
    intro ev hev
    simp only [St.emit] at hev
    rcases List.mem_append.mp hev with h1 | h1
    · exact h ev h1
    · rw [List.mem_singleton] at h1
      subst h1
      exact hL
  by_cases hl : env.launchOk
  · rw [if_pos hl]
    intro ev hev
    simp only [St.emit] at hev
    rcases List.mem_append.mp hev with h1 | h1
    · exact hemit ev (by simpa [St.emit] using h1)
    · rw [List.mem_singleton] at h1
      subst h1
      exact hWt
  · rw [if_neg hl]
    exact hemit

/-- Predicate preservation across the whole pre-cleanup pipeline. -/
theorem pipelineToLaunch_events_pres (P : Event → Prop) (env : MainEnv)
    (runDir : FPath) (st₁ : St)
    (hC : ∀ q, P (Event.createDir q))
    (hWapp : ∀ d, P (Event.writeFile (runDir ++ [appZipName]) d))
    (hWrt : ∀ d, P (Event.writeFile (runDir ++ [runtimeZipName]) d))
    (hWexe : ∀ d, P (Event.writeFile (runDir ++ splitName env.exeFile) d))
    (hWen : ∀ en ∈ env.appZip.entries ++ env.runtimeZip.entries, ∀ d,
        P (Event.writeFile (runDir ++ splitName en.name) d))
    (hRa : P (Event.removeFile (runDir ++ [appZipName])))
    (hRr : P (Event.removeFile (runDir ++ [runtimeZipName])))
    (hL : P (Event.launch (runDir ++ splitName env.exeFile)))
    (hWt : P Event.waitChild)
    (h : ∀ ev ∈ st₁.events, P ev) :
    ∀ ev ∈ (pipelineToLaunch env runDir st₁).events, P ev := by
  unfold pipelineToLaunch
  apply launchStep_events_pres P env runDir _ hL hWt
  apply unzipFile_events_pres P env.runtimeZip _ _ _ hC
    (fun en hen d => hWen en (List.mem_append_right _ hen) d) hRr
  apply unzipFile_events_pres P env.appZip _ _ _ hC
    (fun en hen d => hWen en (List.mem_append_left _ hen) d) hRa
  apply extractResource_events_pres P env.exeRes _ _ hWexe
  apply extractResource_events_pres P env.runtimeRes _ _ hWrt
  exact extractResource_events_pres P env.appRes _ _ hWapp h

/-- Probing the temp directory touches only the error log: the filesystem
is unchanged. -/
theorem tempProbe_fs (tempResult : Option Str) (st : St) :
    (tempProbe tempResult st).fs = st.fs := by
  cases tempResult with
  | none => rfl
  | some t =>
    by_cases ht : t.isEmpty
    · simp [tempProbe, ht, St.report]
    · simp [tempProbe, ht]

/-- Probing the temp directory touches only the error log: the trace is
unchanged. -/
theorem tempProbe_events (tempResult : Option Str) (st : St) :
    (tempProbe tempResult st).events = st.events := by
  cases tempResult with
  | none => rfl
  | some t =>
    by_cases ht : t.isEmpty
    · simp [tempProbe, ht, St.report]
    · simp [tempProbe, ht]

/-- On a filesystem without the run directory, a `getRunDirectory` call
that yields a path has created that directory: the path is the computed
one, exactly one creation event was recorded, and the directory was
appended to the filesystem. -/
theorem getRunDirectory_fresh {tempResult : Option Str} {createDirFails : Bool}
    {exeFile : Str} {st st₁ : St} {runDir : FPath}
    (henv : getRunDirectory tempResult createDirFails exeFile st = (st₁, some runDir))
    (hfresh : st.fs.existsPath (runDirPath tempResult exeFile) = false) :
    runDir = runDirPath tempResult exeFile
    ∧ st₁.events = st.events ++ [Event.createDir runDir]
    ∧ st₁.fs.dirs = st.fs.dirs ++ [runDir]
    ∧ st₁.fs.files = st.fs.files := by
  unfold getRunDirectory at henv
  rw [tempProbe_fs, hfresh] at henv
  simp only [Bool.false_eq_true, if_false] at henv
  by_cases hcf : createDirFails = true
  · rw [if_pos hcf] at henv
    have h2 := congrArg Prod.snd henv
    simp at h2
  · rw [if_neg hcf] at henv
    have h1 := congrArg Prod.fst henv
    have h2 := congrArg Prod.snd henv
    simp only at h1 h2
    have hrd : runDir = runDirPath tempResult exeFile :=
      ((Option.some.injEq _ _).mp h2).symm
    subst hrd
    refine ⟨rfl, ?_, ?_, ?_⟩
    · rw [← h1]
      simp [St.doMkdir, tempProbe_events]
    · rw [← h1]
      simp [St.doMkdir, tempProbe_fs]
    · rw [← h1]
      simp [St.doMkdir, tempProbe_fs]

/-- The run of `main` under a successful directory resolution is the
pipeline followed by the final cleanup, returning 0. -/
theorem mainRun_eq {env : MainEnv} {fs0 : FS} {st₁ : St} {runDir : FPath}
    (henv : getRunDirectory env.tempResult env.createDirFails env.exeFile
      ⟨fs0, [], []⟩ = (st₁, some runDir)) :
    mainRun env fs0 =
      (RunOutcome.exited 0,
       deleteFilesAndDirectories [] runDir (pipelineToLaunch env runDir st₁)) := by
  unfold mainRun
  rw [henv]
  rfl

/-- A directory listed in the filesystem exists. -/
theorem existsPath_of_dirs_mem {fs : FS} {d : FPath} (h : d ∈ fs.dirs) :
    fs.existsPath d = true := by
  simp only [FS.existsPath, Bool.or_eq_true, List.any_eq_true]
  right
  exact ⟨d, h, by simp⟩

/-- The final cleanup call of `main` (empty zip path, existing run
directory) appends exactly one tree-removal event. -/
theorem deleteFAD_final_events (runDir : FPath) (st : St)
    (hne : runDir.isEmpty = false)
    (hex : st.fs.existsPath runDir = true) :
    (deleteFilesAndDirectories [] runDir st).events =
      st.events ++ [Event.removeTree runDir] := by
  rw [show deleteFilesAndDirectories [] runDir st = deleteDirPart runDir st from rfl]
  unfold deleteDirPart
  rw [hne, hex]
  simp only [Bool.not_false, Bool.and_self, if_true]
  by_cases hz : ((st.doRemoveTree runDir).2 == 0) = true
  · rw [if_pos hz]
    rfl
  · rw [if_neg hz]
    rfl

/-- `extractResource` writes files only: directories are untouched. -/
theorem extractResource_fs_dirs (res : ResOutcome) (p : FPath) (st : St) :
    (extractResource res p st).fs.dirs = st.fs.dirs := by
  cases res with
  | okData data =>
    unfold extractResource
    rw [show (IN_MEMORY_EXECUTION : Bool) = false from rfl]
    simp only [Bool.false_eq_true, if_false]
    by_cases h1 : p.isEmpty
    · rw [if_pos h1]
      rfl
    · rw [if_neg h1]
      by_cases h2 : st.fs.dirExistsAt p.dropLast
      · simp only [h2, Bool.not_true, Bool.false_eq_true, if_false]
        rfl
      · simp only [Bool.eq_false_iff.mpr h2, Bool.not_false, if_true]
        rfl
  | noModule => rfl
  | notFound => rfl
  | zeroSize => rfl
  | loadFail => rfl
  | lockFail => rfl

/-- The directory-creation fold only adds directories. -/
theorem mkdirFold_dirs_mem (d : FPath) (qs : List FPath) :
    ∀ (acc : St × Bool), d ∈ acc.1.fs.dirs →
      d ∈ ((qs.foldl
        (fun acc q => if acc.1.fs.dirExistsAt q then acc else (acc.1.doMkdir q, true))
        acc).1).fs.dirs := by
  induction qs with
  | nil => exact fun acc h => h
  | cons q rest ih =>
    intro acc h
    rw [List.foldl_cons]
    apply ih
    by_cases hq : acc.1.fs.dirExistsAt q
    · rw [if_pos hq]
      exact h
    · rw [if_neg hq]
      simp only [St.doMkdir]
      exact List.mem_append_left _ h

/-- `createDirectories` only adds directories. -/
theorem createDirectories_dirs_mem {d : FPath} (p : FPath) (st : St)
    (h : d ∈ st.fs.dirs) : d ∈ (createDirectories p st).1.fs.dirs :=
  mkdirFold_dirs_mem d _ (st, false) h

/-- The entry loop never removes a directory. -/
theorem unzipEntries_dirs_mem {d : FPath} (dst : FPath) (es : List ZipEntry) :
    ∀ (st : St), d ∈ st.fs.dirs → d ∈ (unzipEntries dst es st).1.fs.dirs := by
  induction es with
  | nil => exact fun st h => h
  | cons en rest ih =>
    intro st h
    unfold unzipEntries
    by_cases h512 : 512 ≤ en.name.length
    · rw [if_pos h512]
      exact h
    · rw [if_neg h512]
      by_cases hdir : isDirEntryName en.name
      · rw [if_pos hdir]
        have hcd := createDirectories_dirs_mem (dst ++ splitName en.name) st h
        by_cases hcr : (createDirectories (dst ++ splitName en.name) st).2
        · rw [if_pos hcr]
          exact ih _ hcd
        · rw [if_neg hcr]
          exact hcd
      · rw [if_neg hdir]
        by_cases hpar : st.fs.dirExistsAt (dst ++ splitName en.name).dropLast
        · rw [if_pos hpar]
          exact ih _ h
        · rw [if_neg hpar]
          exact h

/-- `unzipFile` keeps every directory that does not resolve to the archive
path it may remove. -/
theorem unzipFile_dirs_mem {d : FPath} (zd : ZipData) (zipPath dst : FPath)
    (st : St)
    (hne : (normalizePath d == normalizePath zipPath) = false)
    (h : d ∈ st.fs.dirs) :
    d ∈ (unzipFile zd zipPath dst st).fs.dirs := by
  by_cases hb : (st.fs.existsPath zipPath && zd.valid) = true
  · by_cases hn : (zd.entries.length == 0) = true
    · rw [unzipFile_eq_no_files hb hn]
      exact h
    · have hn' : (zd.entries.length == 0) = false := Bool.eq_false_iff.mpr hn
      rcases heq : unzipEntries dst zd.entries st with ⟨st', msg?⟩
      have hst' : d ∈ st'.fs.dirs := by
        have h0 := unzipEntries_dirs_mem dst zd.entries st h
        rw [heq] at h0
        exact h0
      cases msg? with
      | some msg =>
        rw [unzipFile_eq_entries_fail hb hn' heq]
        exact hst'
      | none =>
        rw [unzipFile_eq_entries_ok hb hn' heq]
        by_cases he : st'.fs.existsPath zipPath = true
        · rw [if_pos he]
          by_cases ht : zd.removeThrows = true
          · rw [if_pos ht]
            exact hst'
          · rw [if_neg ht]
            simp only [St.doRemoveFile, FS.removePathFs]
            exact List.mem_filter.mpr ⟨hst', by simp [hne]⟩
        · rw [if_neg he]
          exact hst'
  · rw [unzipFile_eq_open_fail (Bool.eq_false_iff.mpr hb)]
    exact h

/-- The launch block does not touch the filesystem. -/
theorem launchStep_fs (env : MainEnv) (runDir : FPath) (st₆ : St) :
    (launchStep env runDir st₆).fs = st₆.fs := by
  unfold launchStep
  by_cases hl : env.launchOk
  · rw [if_pos hl]
    rfl
  · rw [if_neg hl]
    rfl

/-- The run directory survives the whole pre-cleanup pipeline: neither the
resource writes nor the unzips (which remove only paths resolving to the
two archive files) delete it. -/
theorem pipelineToLaunch_dirs_mem {env : MainEnv} {runDir : FPath} {st₁ : St}
    {d : FPath}
    (hneA : (normalizePath d == normalizePath (runDir ++ [appZipName])) = false)
    (hneR : (normalizePath d == normalizePath (runDir ++ [runtimeZipName])) = false)
    (hd : d ∈ st₁.fs.dirs) :
    d ∈ (pipelineToLaunch env runDir st₁).fs.dirs := by
  unfold pipelineToLaunch
  rw [launchStep_fs]
  apply unzipFile_dirs_mem _ _ _ _ hneR
  apply unzipFile_dirs_mem _ _ _ _ hneA
  rw [extractResource_fs_dirs]
  rw [extractResource_fs_dirs]
  rw [extractResource_fs_dirs]
  exact hd

/-- The trace of a `getRunDirectory` call that yields a path either is the
input trace (directory already present) or appends exactly the creation of
the run directory. -/
theorem getRunDirectory_events {tempResult : Option Str} {createDirFails : Bool}
    {exeFile : Str} {st st₁ : St} {runDir : FPath}
    (henv : getRunDirectory tempResult createDirFails exeFile st = (st₁, some runDir)) :
    st₁.events = st.events ∨
      st₁.events = st.events ++ [Event.createDir runDir] := by
  unfold getRunDirectory at henv
  by_cases hex :
      (tempProbe tempResult st).fs.existsPath (runDirPath tempResult exeFile) = true
  · rw [if_pos hex] at henv
    left
    have h1 := congrArg Prod.fst henv
    simp only at h1
    rw [← h1, tempProbe_events]
  · rw [if_neg hex] at henv
    by_cases hcf : createDirFails = true
    · rw [if_pos hcf] at henv
      have h2 := congrArg Prod.snd henv
      simp at h2
    · rw [if_neg hcf] at henv
      right
      have h1 := congrArg Prod.fst henv
      have h2 := congrArg Prod.snd henv
      simp only [Option.some.injEq] at h1 h2
      rw [← h1]
      simp [St.doMkdir, tempProbe_events, h2]

/-- The launch block always records the launch attempt. -/
theorem launchStep_launch_mem (env : MainEnv) (runDir : FPath) (st₆ : St) :
    Event.launch (runDir ++ splitName env.exeFile) ∈ (launchStep env runDir st₆).events := by
  unfold launchStep
  by_cases hl : env.launchOk
  · rw [if_pos hl]
    simp [St.emit]
  · rw [if_neg hl]
    simp [St.emit, St.report]

/-- The computed run-directory path is never the empty path: it always ends
in the sanitized stem. -/
theorem runDirPath_not_empty (tempResult : Option Str) (exeFile : Str) :
    (runDirPath tempResult exeFile).isEmpty = false := by
  unfold runDirPath
  simp

/-- C4 counterexample: the claim that every extracted byte lands under the
working directory is false on the code — `unzipFile` performs no entry-name
validation, so an archive entry named `../evil.txt` is written to
`<runDir>\..\evil.txt`, which resolves to `C:\Temp\evil.txt`, outside the
run directory `C:\Temp\App` (a zip-slip). -/
theorem c4_dotdot_entry_escapes_counterexample :
    (mainRun envSlip fsTempBase).2.events.contains
        (Event.writeFile slipWritePath ("p".toList)) = true
    ∧ (normalizePath runDir0).isPrefixOf (normalizePath slipWritePath) = false
    ∧ normalizePath slipWritePath =
        ["C:".toList, "Temp".toList, "evil.txt".toList] := by
  decide

/-- C4 amended: in a run starting without the run directory whose
resolution succeeds, the very first recorded action is the creation of the
run directory (so it exists before any extraction); every extracted byte is
written to the run directory extended by an entry or archive name — and
provided no archive entry name and no executable name contains a `..`
component, each such write resolves under the run directory; and the run
directory is removed exactly once, at the very end of the trace, after the
launch attempt (which follows the child's termination or the launch
failure). -/
theorem c4_workdir_lifecycle (env : MainEnv) (fs0 : FS) (st₁ : St) (runDir : FPath)
    (henv : getRunDirectory env.tempResult env.createDirFails env.exeFile
      ⟨fs0, [], []⟩ = (st₁, some runDir))
    (hfresh : fs0.existsPath (runDirPath env.tempResult env.exeFile) = false)
    (hdd : ∀ en ∈ env.appZip.entries ++ env.runtimeZip.entries,
        ("..".toList) ∉ splitName en.name)
    (hexe : ("..".toList) ∉ splitName env.exeFile) :
    (mainRun env fs0).2.events.head? = some (Event.createDir runDir)
    ∧ (∀ p d, Event.writeFile p d ∈ (mainRun env fs0).2.events →
        (normalizePath runDir).isPrefixOf (normalizePath p) = true)
    ∧ ∃ pre, (mainRun env fs0).2.events = pre ++ [Event.removeTree runDir]
        ∧ Event.launch (runDir ++ splitName env.exeFile) ∈ pre
        ∧ Event.removeTree runDir ∉ pre := by
  obtain ⟨hrd, hev1, hdirs1, _⟩ := getRunDirectory_fresh henv hfresh
  have hev1' : st₁.events = [Event.createDir runDir] := by simpa using hev1
  have hneA : (normalizePath runDir ==
      normalizePath (runDir ++ [appZipName])) = false :=
    normalizePath_snoc_ne runDir appZipName (by decide) (by decide)
  have hneR : (normalizePath runDir ==
      normalizePath (runDir ++ [runtimeZipName])) = false :=
    normalizePath_snoc_ne runDir runtimeZipName (by decide) (by decide)
  have hd1 : runDir ∈ st₁.fs.dirs := by
    rw [hdirs1]
    exact List.mem_append_right _ (by simp)
  have hdP : runDir ∈ (pipelineToLaunch env runDir st₁).fs.dirs :=
    pipelineToLaunch_dirs_mem hneA hneR hd1
  have hexP : (pipelineToLaunch env runDir st₁).fs.existsPath runDir = true :=
    existsPath_of_dirs_mem hdP
  have hneNil : runDir.isEmpty = false := by
    rw [hrd]
    exact runDirPath_not_empty _ _
  have hevFinal :
      (deleteFilesAndDirectories [] runDir (pipelineToLaunch env runDir st₁)).events =
        (pipelineToLaunch env runDir st₁).events ++ [Event.removeTree runDir] :=
    deleteFAD_final_events runDir _ hneNil hexP
  obtain ⟨rest, hrest⟩ := pipelineToLaunch_events_mono env runDir st₁
  rw [mainRun_eq henv]
  refine ⟨?_, ?_, ?_⟩
  · simp only [hevFinal, ← hrest, hev1']
    simp
  · have hpres := pipelineToLaunch_events_pres
      (fun ev => ∀ p d, ev = Event.writeFile p d →
        (normalizePath runDir).isPrefixOf (normalizePath p) = true)
      env runDir st₁
      (fun q p d hEq => Event.noConfusion hEq)
      (fun d' p d hEq => by
        injection hEq with h1 _
        subst h1
        exact normalizePath_prefix_of_no_dotdot runDir [appZipName] (by decide))
      (fun d' p d hEq => by
        injection hEq with h1 _
        subst h1
        exact normalizePath_prefix_of_no_dotdot runDir [runtimeZipName] (by decide))
      (fun d' p d hEq => by
        injection hEq with h1 _
        subst h1
        exact normalizePath_prefix_of_no_dotdot runDir (splitName env.exeFile) hexe)
      (fun en hen d' p d hEq => by
        injection hEq with h1 _
        subst h1
        exact normalizePath_prefix_of_no_dotdot runDir (splitName en.name) (hdd en hen))
      (fun p d hEq => Event.noConfusion hEq)
      (fun p d hEq => Event.noConfusion hEq)
      (fun p d hEq => Event.noConfusion hEq)
      (fun p d hEq => Event.noConfusion hEq)
      (by
        intro ev hev p d hEq
        rw [hev1'] at hev
        rw [List.mem_singleton] at hev
        subst hev
        exact Event.noConfusion hEq)
    intro p d hmem
    rw [hevFinal] at hmem
    rcases List.mem_append.mp hmem with h1 | h1
    · exact hpres _ h1 p d rfl
    · rw [List.mem_singleton] at h1
      exact Event.noConfusion h1
  · refine ⟨(pipelineToLaunch env runDir st₁).events, hevFinal, ?_, ?_⟩
    · unfold pipelineToLaunch
      exact launchStep_launch_mem env runDir _
    · have hpres := pipelineToLaunch_events_pres
        (fun ev => ∀ q, ev = Event.removeTree q → False)
        env runDir st₁
        (fun q q' hEq => Event.noConfusion hEq)
        (fun d q hEq => Event.noConfusion hEq)
        (fun d q hEq => Event.noConfusion hEq)
        (fun d q hEq => Event.noConfusion hEq)
        (fun en hen d q hEq => Event.noConfusion hEq)
        (fun q hEq => Event.noConfusion hEq)
        (fun q hEq => Event.noConfusion hEq)
        (fun q hEq => Event.noConfusion hEq)
        (fun q hEq => Event.noConfusion hEq)
        (by
          intro ev hev q hEq
          rw [hev1'] at hev
          rw [List.mem_singleton] at hev
          subst hev
          exact Event.noConfusion hEq)
      intro hmem
      exact hpres _ hmem runDir rfl

/-- C4 witness: the fully successful concrete run creates `C:\Temp\App`
first, and its `app.zip` write resolves under the run directory. -/
theorem c4_workdir_lifecycle_witness :
    (mainRun envAllOk fsTempBase).2.events.head? = some (Event.createDir runDir0)
    ∧ (normalizePath runDir0).isPrefixOf
        (normalizePath (runDir0 ++ [appZipName])) = true := by
  have h := c4_workdir_lifecycle envAllOk fsTempBase stRunDirMade runDir0
    (by decide) (by decide) (by decide) (by decide)
  exact ⟨h.1, h.2.1 (runDir0 ++ [appZipName]) ("AZ".toList) (by decide)⟩
